import Mathlib

/-!
# Verification of the Killer-signal streaming engine

A shallow embedding of the signal engine found in `server.js` (consolidated
variant) and the one-tick variant. Prices and scores are modelled as real
numbers, timestamps as integers (epoch milliseconds). JavaScript quirks that
matter to the claims are reproduced explicitly:

* `arr.slice(-n)` is `List.drop (arr.length - n)`;
* `x - null` coerces `null` to `0`, which we model with `Option.getD 0`
  (this arises when `computeEnsemble` subtracts `sma(prices, 20)` on a
  buffer of length 12–19);
* the JS `%` operator is a truncated remainder, `Int.tmod`.
-/

namespace KillerSignal

/-- Capacity of the per-symbol rolling buffers in the consolidated variant
(constant `MAX_BUF` in `server.js`). -/
def MAX_BUF : ℕ := 1000

/-- Capacity of the price buffer in the one-tick variant (constant `MAXBUF`). -/
def MAXBUF : ℕ := 500

/-- Common shape of both buffer-push routines: append the new price and, if the
resulting length exceeds the capacity, drop the oldest element (JS `shift()`). -/
def boundedPush (cap : ℕ) (buf : List ℝ) (price : ℝ) : List ℝ :=
  let b := buf ++ [price]
  if cap < b.length then b.tail else b

/-- Function `pushBuf` from `server.js` (consolidated variant, capacity 1000). -/
def pushBuf (buf : List ℝ) (price : ℝ) : List ℝ := boundedPush MAX_BUF buf price

/-- Function `pushPrice` from the one-tick variant (capacity 500). -/
def pushPrice (buf : List ℝ) (price : ℝ) : List ℝ := boundedPush MAXBUF buf price

/-- Function `sma(arr, n)` from `server.js`: `null` (here `none`) when fewer than `n`
samples exist, otherwise the arithmetic mean of the last `n` samples. -/
noncomputable def sma (arr : List ℝ) (n : ℕ) : Option ℝ :=
  if arr.length < n then none
  else some ((arr.drop (arr.length - n)).sum / n)

/-- Function `stdev(arr, n)` from `server.js`: the number `0` when fewer than `n`
samples exist, otherwise the square root of the mean squared deviation of the
last `n` samples (divisor `n`). -/
noncomputable def stdev (arr : List ℝ) (n : ℕ) : ℝ :=
  if arr.length < n then 0
  else
    let sl := arr.drop (arr.length - n)
    let mean := sl.sum / n
    Real.sqrt ((sl.map fun b => (b - mean) * (b - mean)).sum / n)

/-- Result record of `computeEnsemble`, field `details` (JS object with the
intermediate feature values, `null` when data is insufficient). -/
structure EnsembleDetails where
  mScore : ℝ
  tScore : ℝ
  vScore : ℝ
  momentum : ℝ
  trend : ℝ
  volRatio : ℝ

/-- Result record of `computeEnsemble`: `{score, direction, details}`. -/
structure EnsembleResult where
  score : ℝ
  direction : String
  details : Option EnsembleDetails

/-- The insufficient-data marker `{score: 0, direction: 'none', details: null}`
returned by `computeEnsemble` on a short buffer. -/
def insufficientResult : EnsembleResult := ⟨0, "none", none⟩

/-- Value `momentum = ma3 - ma9` inside `computeEnsemble`. On the code path where it
is used the buffer has at least 12 samples, so both means exist; `getD 0`
mirrors the JS coercion of `null` to `0` in subtraction. -/
noncomputable def momentum (prices : List ℝ) : ℝ :=
  (sma prices 3).getD 0 - (sma prices 9).getD 0

/-- Value `trend = ma9 - ma20` inside `computeEnsemble`. For buffers of length
12–19, `sma(prices, 20)` is `null` and JS coerces it to `0`. -/
noncomputable def trend (prices : List ℝ) : ℝ :=
  (sma prices 9).getD 0 - (sma prices 20).getD 0

/-- Value `volRatio = vol5 / (vol20 + 1e-9)` inside `computeEnsemble`. -/
noncomputable def volRatio (prices : List ℝ) : ℝ :=
  stdev prices 5 / (stdev prices 20 + 1e-9)

/-- Value `mScore = (tanh(momentum/2) + 1) / 2` inside `computeEnsemble`. -/
noncomputable def mScore (prices : List ℝ) : ℝ :=
  (Real.tanh (momentum prices / 2) + 1) / 2

/-- Value `tScore = (tanh(trend/2) + 1) / 2` inside `computeEnsemble`. -/
noncomputable def tScore (prices : List ℝ) : ℝ :=
  (Real.tanh (trend prices / 2) + 1) / 2

/-- Value `vScore = 1 - tanh(volRatio)` inside `computeEnsemble`. -/
noncomputable def vScore (prices : List ℝ) : ℝ :=
  1 - Real.tanh (volRatio prices)

/-- The weighted composite before clamping, with the code's weights
`{m: 0.5, t: 0.35, v: 0.15}`. -/
noncomputable def rawScore (prices : List ℝ) : ℝ :=
  mScore prices * 0.5 + tScore prices * 0.35 + vScore prices * 0.15

/-- Function `computeEnsemble(prices)` from `server.js`: marker when fewer than 12
samples, otherwise the clamped composite score, the direction decided by the
sign of `momentum + trend`, and the detail record. -/
noncomputable def computeEnsemble (prices : List ℝ) : EnsembleResult :=
  if prices.length < 12 then insufficientResult
  else
    { score := max 0 (min 1 (rawScore prices))
      direction := if 0 ≤ momentum prices + trend prices then "over" else "under"
      details := some ⟨mScore prices, tScore prices, vScore prices,
        momentum prices, trend prices, volRatio prices⟩ }

/-- Value `Math.floor(price) % 10` as JS computes it (`%` is a truncated
remainder). Called `last` in `parityConfidence` and `lastDigit` in the one-tick
variant. -/
noncomputable def lastDigit (price : ℝ) : ℤ := Int.tmod ⌊price⌋ 10

/-- Result record of `parityConfidence`: `{parity, conf}`. -/
structure ParityResult where
  parity : String
  conf : ℝ

/-- Function `parityConfidence(price)` from `server.js`: direction from the parity of
the last integer digit, confidence `min(0.99, 0.5 + bonus)` with a `0.03`
bonus exactly when the digit is in `[0,2,4,6,8]`. -/
noncomputable def parityConfidence (price : ℝ) : ParityResult :=
  { parity := if Int.tmod (lastDigit price) 2 = 0 then "even" else "odd"
    conf := min 0.99
      (0.5 + if lastDigit price ∈ ([0, 2, 4, 6, 8] : List ℤ) then (0.03 : ℝ) else 0) }

/-- The parity direction computed by `compute1TickPrediction` in the one-tick
variant: `(lastDigit % 2 === 0) ? 'even' : 'odd'`. -/
noncomputable def parity1Tick (p0 : ℝ) : String :=
  if Int.tmod (lastDigit p0) 2 = 0 then "even" else "odd"

/-- The parity confidence computed by `compute1TickPrediction` in the one-tick
variant: `min(0.99, 0.5 + 0.05·[lastDigit ∈ {0,2,4,6,8}])`. -/
noncomputable def parityConf1Tick (p0 : ℝ) : ℝ :=
  min 0.99 (0.5 + if lastDigit p0 ∈ ([0, 2, 4, 6, 8] : List ℤ) then (0.05 : ℝ) else 0)

/-- Population standard deviation of a whole list (divisor = its length),
stated from the spec's words, for comparison with the code's `stdev`. -/
noncomputable def populationStdDev (l : List ℝ) : ℝ :=
  Real.sqrt ((l.map fun x => (x - l.sum / l.length) ^ 2).sum / l.length)

/-- The three signal types emitted by `maybeEmitSignals`. -/
inductive SigType
  | over_under
  | even_odd
  | matches
deriving DecidableEq

/-- A signal object as constructed in `maybeEmitSignals`. -/
structure Signal where
  id : String
  ts : ℤ
  type : SigType
  direction : String
  price : ℝ
  score : ℝ
  confidence : ℝ
  expiry_seconds : ℕ

/-- The mutable process state read and written by `maybeEmitSignals`:
the two symbol buffers and the single shared `lastSignal` timestamp. -/
structure EngineState where
  bufMain : List ℝ
  bufAlt : List ℝ
  lastSignal : ℤ

/-- Value `diff = mDiff - aDiff` in the matches branch of `maybeEmitSignals`
(`getD 0` mirrors the JS coercion of a `null` mean to `0`; on the code path
both buffers have at least 9 samples, so the means exist). -/
noncomputable def matchesDiff (bufMain bufAlt : List ℝ) : ℝ :=
  ((sma bufMain 3).getD 0 - (sma bufMain 9).getD 0) -
    ((sma bufAlt 3).getD 0 - (sma bufAlt 9).getD 0)

/-- Value `conf = Math.min(0.95, Math.abs(diff)/5 + 0.45)` in the matches branch. -/
noncomputable def matchesConf (bufMain bufAlt : List ℝ) : ℝ :=
  min 0.95 (|matchesDiff bufMain bufAlt| / 5 + 0.45)

/-- First branch of `maybeEmitSignals`: emit an `over_under` signal and move
`lastSignal` to `now` when the ensemble score reaches the configured
threshold; otherwise leave the timestamp at `last0`. -/
noncomputable def gateStep1 (thr : ℝ) (bufMain : List ℝ) (now : ℤ) (priceMain : ℝ)
    (last0 : ℤ) : ℤ × List Signal :=
  if thr ≤ (computeEnsemble bufMain).score then
    (now, [{ id := "sig_" ++ toString now, ts := now, type := SigType.over_under,
             direction := (computeEnsemble bufMain).direction, price := priceMain,
             score := (computeEnsemble bufMain).score,
             confidence := (computeEnsemble bufMain).score, expiry_seconds := 60 }])
  else (last0, [])

/-- Second branch of `maybeEmitSignals`: emit an `even_odd` signal when the
parity confidence reaches the hard-coded `0.55` and the cooldown measured
against the (possibly just-updated) timestamp `last1` has elapsed. -/
noncomputable def gateStep2 (cd : ℤ) (now : ℤ) (priceMain : ℝ) (last1 : ℤ) :
    ℤ × List Signal :=
  if (0.55 : ℝ) ≤ (parityConfidence priceMain).conf ∧ cd ≤ now - last1 then
    (now, [{ id := "sig_" ++ toString now ++ "_par", ts := now, type := SigType.even_odd,
             direction := (parityConfidence priceMain).parity, price := priceMain,
             score := (parityConfidence priceMain).conf,
             confidence := (parityConfidence priceMain).conf, expiry_seconds := 60 }])
  else (last1, [])

/-- Third branch of `maybeEmitSignals`: when both buffers hold at least 9
samples and the cooldown measured against `last2` has elapsed, emit a
`matches` signal if its confidence exceeds the hard-coded `0.6`. -/
noncomputable def gateStep3 (cd : ℤ) (symMain symAlt : String) (bufMain bufAlt : List ℝ)
    (now : ℤ) (priceMain : ℝ) (last2 : ℤ) : ℤ × List Signal :=
  if 9 ≤ bufMain.length ∧ 9 ≤ bufAlt.length ∧ cd ≤ now - last2 then
    if (0.6 : ℝ) < matchesConf bufMain bufAlt then
      (now, [{ id := "sig_" ++ toString now ++ "_match", ts := now, type := SigType.matches,
               direction := if 0 < matchesDiff bufMain bufAlt then symMain else symAlt,
               price := priceMain, score := matchesConf bufMain bufAlt,
               confidence := matchesConf bufMain bufAlt, expiry_seconds := 60 }])
    else (last2, [])
  else (last2, [])

/-- Function `maybeEmitSignals(priceMain)` from `server.js`, with the globals made
explicit: returns early when the shared cooldown has not elapsed, otherwise
runs the three emission branches in priority order `over_under`, `even_odd`,
`matches`, each branch seeing the timestamp left by the previous one. Returns
the new state and the list of emitted signals. -/
noncomputable def maybeEmitSignals (thr : ℝ) (cd : ℤ) (symMain symAlt : String)
    (st : EngineState) (now : ℤ) (priceMain : ℝ) : EngineState × List Signal :=
  if now - st.lastSignal < cd then (st, [])
  else
    let r1 := gateStep1 thr st.bufMain now priceMain st.lastSignal
    let r2 := gateStep2 cd now priceMain r1.1
    let r3 := gateStep3 cd symMain symAlt st.bufMain st.bufAlt now priceMain r2.1
    ({ bufMain := st.bufMain, bufAlt := st.bufAlt, lastSignal := r3.1 },
      r1.2 ++ r2.2 ++ r3.2)

/-- Concrete main buffer (9 samples) used by the witnesses: a flat stretch
followed by a jump, giving a large positive `matchesDiff`. -/
def wBufMain : List ℝ := [0, 0, 0, 0, 0, 0, 10, 10, 10]

/-- Concrete alternate buffer (9 flat samples) used by the witnesses. -/
def wBufAlt : List ℝ := [0, 0, 0, 0, 0, 0, 0, 0, 0]

section BufferLemmas

lemma length_boundedPush (cap : ℕ) (buf : List ℝ) (p : ℝ) (h : buf.length ≤ cap) :
    (boundedPush cap buf p).length ≤ cap := by
  simp only [boundedPush]
  split_ifs with h1
  · simp only [List.length_tail, List.length_append, List.length_singleton]
    omega
  · simp only [List.length_append, List.length_singleton] at h1 ⊢
    omega

lemma length_foldl_boundedPush (cap : ℕ) (ps : List ℝ) :
    ∀ buf : List ℝ, buf.length ≤ cap → ((ps.foldl (boundedPush cap) buf).length ≤ cap) := by
  induction ps with
  | nil => intro buf h; simpa using h
  | cons p ps ih =>
      intro buf h
      exact ih _ (length_boundedPush cap buf p h)

lemma boundedPush_of_lt (cap : ℕ) (buf : List ℝ) (p : ℝ) (h : buf.length < cap) :
    boundedPush cap buf p = buf ++ [p] := by
  simp only [boundedPush]
  rw [if_neg]
  simp only [List.length_append, List.length_singleton]
  omega

lemma boundedPush_of_full (cap : ℕ) (buf : List ℝ) (p : ℝ) (hc : 0 < cap)
    (h : buf.length = cap) : boundedPush cap buf p = buf.tail ++ [p] := by
  cases buf with
  | nil => simp at h; omega
  | cons a t =>
      have hlen : cap < ((a :: t) ++ [p]).length := by
        simp only [List.length_append, List.length_cons, List.length_singleton]
        simp only [List.length_cons] at h
        omega
      simp only [boundedPush]
      rw [if_pos hlen]
      simp

end BufferLemmas

section FeatureLemmas

lemma sma_of_lt (arr : List ℝ) (n : ℕ) (h : arr.length < n) : sma arr n = none := by
  rw [sma, if_pos h]

lemma sma_eq (arr : List ℝ) (n : ℕ) (h : n ≤ arr.length) :
    sma arr n = some ((arr.drop (arr.length - n)).sum / n) := by
  rw [sma, if_neg (by omega)]

lemma stdev_of_lt (arr : List ℝ) (n : ℕ) (h : arr.length < n) : stdev arr n = 0 := by
  rw [stdev, if_pos h]

lemma stdev_eq (arr : List ℝ) (n : ℕ) (h : n ≤ arr.length) :
    stdev arr n = Real.sqrt ((((arr.drop (arr.length - n)).map fun b =>
      (b - (arr.drop (arr.length - n)).sum / n) *
        (b - (arr.drop (arr.length - n)).sum / n)).sum) / n) := by
  rw [stdev, if_neg (by omega)]

lemma sma_replicate (k n : ℕ) (a : ℝ) (hn : 0 < n) (h : n ≤ k) :
    sma (List.replicate k a) n = some a := by
  rw [sma_eq _ _ (by simpa using h)]
  have hkn : (List.replicate k a).length - n = k - n := by simp
  rw [hkn, List.drop_replicate]
  have hkk : k - (k - n) = n := by omega
  rw [hkk, List.sum_replicate, nsmul_eq_mul,
    mul_div_cancel_left₀ _ (Nat.cast_ne_zero.mpr (by omega) : (n : ℝ) ≠ 0)]

lemma stdev_replicate (k n : ℕ) (a : ℝ) (hn : 0 < n) (h : n ≤ k) :
    stdev (List.replicate k a) n = 0 := by
  rw [stdev_eq _ _ (by simpa using h)]
  have hkn : (List.replicate k a).length - n = k - n := by simp
  rw [hkn, List.drop_replicate]
  have hkk : k - (k - n) = n := by omega
  rw [hkk, List.sum_replicate, nsmul_eq_mul,
    mul_div_cancel_left₀ _ (Nat.cast_ne_zero.mpr (by omega) : (n : ℝ) ≠ 0)]
  simp [List.map_replicate, List.sum_replicate]

lemma sum_map_sq_dev (l : List ℝ) (m : ℝ) :
    (l.map fun x => (x - m) * (x - m)).sum
      = (l.map fun x => x * x).sum - 2 * m * l.sum + l.length * m ^ 2 := by
  induction l with
  | nil => simp
  | cons a t ih =>
      simp only [List.map_cons, List.sum_cons, List.length_cons, ih]
      push_cast
      ring

lemma score_nonneg (prices : List ℝ) : 0 ≤ (computeEnsemble prices).score := by
  rw [computeEnsemble]
  split_ifs
  · simp [insufficientResult]
  all_goals exact le_max_left _ _

lemma score_le_one (prices : List ℝ) : (computeEnsemble prices).score ≤ 1 := by
  rw [computeEnsemble]
  split_ifs
  · simp [insufficientResult]
  all_goals exact max_le (by norm_num) (min_le_left _ _)

lemma computeEnsemble_of_lt (prices : List ℝ) (h : prices.length < 12) :
    computeEnsemble prices = insufficientResult := by
  rw [computeEnsemble, if_pos h]

lemma computeEnsemble_score (prices : List ℝ) (h : 12 ≤ prices.length) :
    (computeEnsemble prices).score = max 0 (min 1 (rawScore prices)) := by
  rw [computeEnsemble, if_neg (by omega)]

lemma computeEnsemble_direction (prices : List ℝ) (h : 12 ≤ prices.length) :
    (computeEnsemble prices).direction
      = if 0 ≤ momentum prices + trend prices then "over" else "under" := by
  rw [computeEnsemble, if_neg (by omega)]

end FeatureLemmas

section ConstantPriceLemmas

lemma const20_momentum : momentum (List.replicate 20 (100 : ℝ)) = 0 := by
  rw [momentum, sma_replicate 20 3 100 (by norm_num) (by norm_num),
    sma_replicate 20 9 100 (by norm_num) (by norm_num)]
  simp

lemma const20_trend : trend (List.replicate 20 (100 : ℝ)) = 0 := by
  rw [trend, sma_replicate 20 9 100 (by norm_num) (by norm_num),
    sma_replicate 20 20 100 (by norm_num) (by norm_num)]
  simp

lemma const20_vol5 : stdev (List.replicate 20 (100 : ℝ)) 5 = 0 :=
  stdev_replicate 20 5 100 (by norm_num) (by norm_num)

lemma const20_vol20 : stdev (List.replicate 20 (100 : ℝ)) 20 = 0 :=
  stdev_replicate 20 20 100 (by norm_num) (by norm_num)

lemma const20_volRatio : volRatio (List.replicate 20 (100 : ℝ)) = 0 := by
  rw [volRatio, const20_vol5, const20_vol20]
  simp

lemma const20_vScore : vScore (List.replicate 20 (100 : ℝ)) = 1 := by
  rw [vScore, const20_volRatio, Real.tanh_zero]
  norm_num

lemma const20_raw : rawScore (List.replicate 20 (100 : ℝ)) = 0.575 := by
  rw [rawScore, mScore, tScore, const20_momentum, const20_trend, const20_vScore]
  norm_num [Real.tanh_zero]

lemma const20_score : (computeEnsemble (List.replicate 20 (100 : ℝ))).score = 0.575 := by
  rw [computeEnsemble_score _ (by simp), const20_raw]
  norm_num [min_def, max_def]

lemma const20_direction :
    (computeEnsemble (List.replicate 20 (100 : ℝ))).direction = "over" := by
  rw [computeEnsemble_direction _ (by simp), const20_momentum, const20_trend]
  norm_num

end ConstantPriceLemmas

/-- C3: for every sequence of pushed prices the per-symbol buffer length never
exceeds its capacity (1000 for `pushBuf`, 500 for `pushPrice`), and on
overflow exactly the oldest element is evicted (strict FIFO), preserving
arrival order with duplicates allowed. -/
theorem C3_buffer_fifo :
    (∀ ps : List ℝ, (ps.foldl pushBuf []).length ≤ 1000) ∧
    (∀ ps : List ℝ, (ps.foldl pushPrice []).length ≤ 500) ∧
    (∀ (buf : List ℝ) (p : ℝ), buf.length < 1000 → pushBuf buf p = buf ++ [p]) ∧
    (∀ (buf : List ℝ) (p : ℝ), buf.length = 1000 → pushBuf buf p = buf.tail ++ [p]) ∧
    (∀ (buf : List ℝ) (p : ℝ), buf.length < 500 → pushPrice buf p = buf ++ [p]) ∧
    (∀ (buf : List ℝ) (p : ℝ), buf.length = 500 → pushPrice buf p = buf.tail ++ [p]) := by
  refine ⟨fun ps => ?_, fun ps => ?_, fun buf p h => ?_, fun buf p h => ?_,
    fun buf p h => ?_, fun buf p h => ?_⟩
  · exact length_foldl_boundedPush 1000 ps [] (by simp)
  · exact length_foldl_boundedPush 500 ps [] (by simp)
  · exact boundedPush_of_lt 1000 buf p h
  · exact boundedPush_of_full 1000 buf p (by norm_num) h
  · exact boundedPush_of_lt 500 buf p h
  · exact boundedPush_of_full 500 buf p (by norm_num) h

/-- Witness for C3 at concrete inputs: a full 1000-element (resp. 500-element)
buffer evicts exactly its oldest element, and a short buffer just appends. -/
theorem C3_buffer_fifo_witness :
    pushBuf (List.replicate 1000 (0 : ℝ)) 5 = (List.replicate 1000 (0 : ℝ)).tail ++ [5] ∧
    pushPrice (List.replicate 500 (0 : ℝ)) 5 = (List.replicate 500 (0 : ℝ)).tail ++ [5] ∧
    pushBuf [1, 2] 3 = [1, 2, 3] := by
  refine ⟨C3_buffer_fifo.2.2.2.1 _ 5 (by rw [List.length_replicate]),
    C3_buffer_fifo.2.2.2.2.2 _ 5 (by rw [List.length_replicate]), ?_⟩
  simpa using C3_buffer_fifo.2.2.1 [1, 2] 3 (by simp)

/-- C2 counterexample: a buffer of 12 identical prices has fewer than 20
samples, yet `computeEnsemble` does not return the insufficient-data marker —
it produces a numeric result with direction `over` (the guard in the code is
`length < 12`, not `< 20`; `sma(prices, 20)` is `null` there and JS coerces it
to `0` inside `trend`). -/
theorem C2_counterexample :
    (List.replicate 12 (100 : ℝ)).length < 20 ∧
    (computeEnsemble (List.replicate 12 (100 : ℝ))).direction = "over" ∧
    (computeEnsemble (List.replicate 12 (100 : ℝ))).direction ≠ "none" := by
  have hdir : (computeEnsemble (List.replicate 12 (100 : ℝ))).direction = "over" := by
    rw [computeEnsemble_direction _ (by simp), momentum, trend,
      sma_replicate 12 3 100 (by norm_num) (by norm_num),
      sma_replicate 12 9 100 (by norm_num) (by norm_num),
      sma_of_lt _ 20 (by simp)]
    norm_num
  refine ⟨by simp, hdir, ?_⟩
  rw [hdir]
  decide

/-- C2 (amended): `computeEnsemble` returns the insufficient-data marker
`{score: 0, direction: 'none', details: null}` exactly on buffers with fewer
than 12 samples (not 20), and `sma` over a buffer shorter than its window
always returns `null`, never a number. -/
theorem C2_insufficient_data :
    (∀ prices : List ℝ, prices.length < 12 → computeEnsemble prices = insufficientResult) ∧
    (∀ (arr : List ℝ) (n : ℕ), arr.length < n → sma arr n = none) :=
  ⟨fun prices h => computeEnsemble_of_lt prices h, fun arr n h => sma_of_lt arr n h⟩

/-- Witness for C2 (amended) at concrete inputs: the empty buffer yields the
marker, and `sma` of a 2-element buffer with window 3 is `null`. -/
theorem C2_insufficient_data_witness :
    computeEnsemble [] = insufficientResult ∧ sma [1, 2] 3 = none :=
  ⟨C2_insufficient_data.1 [] (by simp), C2_insufficient_data.2 [1, 2] 3 (by simp)⟩

/-- C4: for every input buffer the composite score returned by
`computeEnsemble` lies within `[0, 1]` (the clamp is applied to the composite
only; the component scores are not clamped anywhere in the code). -/
theorem C4_score_in_unit_interval (prices : List ℝ) :
    0 ≤ (computeEnsemble prices).score ∧ (computeEnsemble prices).score ≤ 1 :=
  ⟨score_nonneg prices, score_le_one prices⟩

/-- C5 counterexample: for 20 identical prices of value 100 the composite
score is `0.575`, not the volatility-term weight `0.15` — with momentum and
trend both `0`, `mScore` and `tScore` are `0.5` each (`tanh 0 = 0`), so the
composite is `0.5·0.5 + 0.35·0.5 + 0.15·1 = 0.575`. -/
theorem C5_counterexample :
    (computeEnsemble (List.replicate 20 (100 : ℝ))).score = 0.575 ∧
    (0.575 : ℝ) ≠ 0.15 :=
  ⟨const20_score, by norm_num⟩

/-- C5 (amended): for 20 identical prices of value 100, `vol5 = vol20 = 0`,
hence `volRatio = 0` and `volScore = 1`; momentum and trend are `0`; the
composite score equals `w_m/2 + w_t/2 + w_v = 0.575` (not the volatility-term
weight alone), and the direction resolves to `over` by the tie-break rule. -/
theorem C5_constant_price :
    stdev (List.replicate 20 (100 : ℝ)) 5 = 0 ∧
    stdev (List.replicate 20 (100 : ℝ)) 20 = 0 ∧
    volRatio (List.replicate 20 (100 : ℝ)) = 0 ∧
    vScore (List.replicate 20 (100 : ℝ)) = 1 ∧
    momentum (List.replicate 20 (100 : ℝ)) = 0 ∧
    trend (List.replicate 20 (100 : ℝ)) = 0 ∧
    (computeEnsemble (List.replicate 20 (100 : ℝ))).score = 0.575 ∧
    (computeEnsemble (List.replicate 20 (100 : ℝ))).direction = "over" :=
  ⟨const20_vol5, const20_vol20, const20_volRatio, const20_vScore,
    const20_momentum, const20_trend, const20_score, const20_direction⟩

/-- C8: whenever the ensemble computes features (buffer length at least 12),
its direction is `over` iff `momentum + trend ≥ 0` and `under` otherwise; in
particular a tie at exactly zero resolves to `over`. -/
theorem C8_direction_sign (prices : List ℝ) (h : 12 ≤ prices.length) :
    ((computeEnsemble prices).direction
      = if 0 ≤ momentum prices + trend prices then "over" else "under") ∧
    (momentum prices + trend prices = 0 → (computeEnsemble prices).direction = "over") := by
  refine ⟨computeEnsemble_direction prices h, fun h0 => ?_⟩
  rw [computeEnsemble_direction prices h, h0]
  norm_num

/-- Witness for C8 at a concrete input: 12 zero prices give a tie
(`momentum + trend = 0`), which resolves to direction `over`. -/
theorem C8_direction_sign_witness :
    (computeEnsemble (List.replicate 12 (0 : ℝ))).direction = "over" := by
  apply (C8_direction_sign (List.replicate 12 (0 : ℝ)) (by simp)).2
  rw [momentum, trend, sma_replicate 12 3 0 (by norm_num) (by norm_num),
    sma_replicate 12 9 0 (by norm_num) (by norm_num), sma_of_lt _ 20 (by simp)]
  simp

/-- C9: `stdev(arr, n)` is the population standard deviation of the last `n`
samples when enough samples exist — equal to the sqrt of the divisor-`n`
variance, whose square satisfies the `E[x²] − (E[x])²` identity — and is the
number `0` (while `sma` returns the `null` marker) when `arr` has fewer than
`n` samples. -/
theorem C9_population_stdev :
    (∀ (arr : List ℝ) (n : ℕ), arr.length < n → stdev arr n = 0 ∧ sma arr n = none) ∧
    (∀ (arr : List ℝ) (n : ℕ), 0 < n → n ≤ arr.length →
      stdev arr n = populationStdDev (arr.drop (arr.length - n))) ∧
    (∀ (arr : List ℝ) (n : ℕ), 0 < n → n ≤ arr.length →
      (stdev arr n) ^ 2
        = ((arr.drop (arr.length - n)).map fun x => x * x).sum / n
          - ((arr.drop (arr.length - n)).sum / n) ^ 2) := by
  have hlen : ∀ (arr : List ℝ) (n : ℕ), n ≤ arr.length →
      (arr.drop (arr.length - n)).length = n := by
    intro arr n h
    rw [List.length_drop]
    omega
  have hnn : ∀ (l : List ℝ) (m : ℝ), 0 ≤ (l.map fun b => (b - m) * (b - m)).sum := by
    intro l m
    apply List.sum_nonneg
    intro x hx
    rcases List.mem_map.mp hx with ⟨b, _, rfl⟩
    exact mul_self_nonneg _
  refine ⟨fun arr n h => ⟨stdev_of_lt arr n h, sma_of_lt arr n h⟩,
    fun arr n hn h => ?_, fun arr n hn h => ?_⟩
  · rw [stdev_eq _ _ h, populationStdDev, hlen arr n h]
    have hfun : (fun b : ℝ => (b - (arr.drop (arr.length - n)).sum / n) *
          (b - (arr.drop (arr.length - n)).sum / n))
        = fun x : ℝ => (x - (arr.drop (arr.length - n)).sum / n) ^ 2 := by
      funext x
      ring
    rw [hfun]
  · have hne : (n : ℝ) ≠ 0 := Nat.cast_ne_zero.mpr (by omega)
    rw [stdev_eq _ _ h,
      Real.sq_sqrt (div_nonneg (hnn _ _) (by positivity)),
      sum_map_sq_dev, hlen arr n h]
    field_simp
    ring

/-- Witness for C9 at concrete inputs: a too-short buffer gives `0` and the
`null` marker; for `[3, 5]` with window 2 the code's `stdev` matches the
population standard deviation and its square is `17 − 16 = 1`. -/
theorem C9_population_stdev_witness :
    stdev ([] : List ℝ) 1 = 0 ∧ sma ([] : List ℝ) 1 = none ∧
    stdev [3, 5] 2 = populationStdDev [3, 5] ∧
    (stdev ([3, 5] : List ℝ) 2) ^ 2 = 1 := by
  have h1 := C9_population_stdev.1 ([] : List ℝ) 1 (by simp)
  have h2 := C9_population_stdev.2.1 [3, 5] 2 (by norm_num) (by simp)
  have h3 := C9_population_stdev.2.2 ([3, 5] : List ℝ) 2 (by norm_num) (by simp)
  refine ⟨h1.1, h1.2, by simpa using h2, ?_⟩
  rw [h3]
  norm_num

section ParityLemmas

lemma parityConfidence_conf (price : ℝ) :
    (parityConfidence price).conf = min 0.99
      (0.5 + if lastDigit price ∈ ([0, 2, 4, 6, 8] : List ℤ) then (0.03 : ℝ) else 0) := rfl

lemma parityConfidence_parity (price : ℝ) :
    (parityConfidence price).parity
      = if Int.tmod (lastDigit price) 2 = 0 then "even" else "odd" := rfl

lemma parity_conf_le (price : ℝ) : (parityConfidence price).conf ≤ 0.53 := by
  rw [parityConfidence_conf]
  split_ifs
  · exact le_trans (min_le_right _ _) (by norm_num)
  · exact le_trans (min_le_right _ _) (by norm_num)

lemma gateStep2_eq (cd now : ℤ) (p : ℝ) (last1 : ℤ) :
    gateStep2 cd now p last1 = (last1, []) := by
  rw [gateStep2, if_neg]
  rintro ⟨h1, -⟩
  have h2 := parity_conf_le p
  linarith

end ParityLemmas

section GateLemmas

lemma mem_gateStep1 {thr : ℝ} {bufMain : List ℝ} {now : ℤ} {p : ℝ} {last0 : ℤ} {s : Signal}
    (hs : s ∈ (gateStep1 thr bufMain now p last0).2) :
    s.type = SigType.over_under ∧ s.confidence = (computeEnsemble bufMain).score ∧
    thr ≤ (computeEnsemble bufMain).score := by
  rw [gateStep1] at hs
  split_ifs at hs with h
  · simp at hs
    subst hs
    exact ⟨rfl, rfl, h⟩
  · simp at hs

lemma mem_gateStep3 {cd : ℤ} {symM symA : String} {bm ba : List ℝ} {now : ℤ} {p : ℝ}
    {last2 : ℤ} {s : Signal} (hs : s ∈ (gateStep3 cd symM symA bm ba now p last2).2) :
    s.type = SigType.matches ∧ 9 ≤ bm.length ∧ 9 ≤ ba.length ∧ cd ≤ now - last2 ∧
    s.confidence = matchesConf bm ba ∧
    s.direction = (if 0 < matchesDiff bm ba then symM else symA) ∧
    (0.6 : ℝ) < matchesConf bm ba := by
  rw [gateStep3] at hs
  split_ifs at hs with h1 h2 hdir
  · simp at hs
    subst hs
    refine ⟨rfl, h1.1, h1.2.1, h1.2.2, rfl, ?_, h2⟩
    rw [if_pos hdir]
  · simp at hs
    subst hs
    refine ⟨rfl, h1.1, h1.2.1, h1.2.2, rfl, ?_, h2⟩
    rw [if_neg hdir]
  · simp at hs
  · simp at hs

lemma gateStep1_of_neg {thr : ℝ} {bm : List ℝ} {now : ℤ} {p : ℝ} {last0 : ℤ}
    (h : ¬ thr ≤ (computeEnsemble bm).score) :
    gateStep1 thr bm now p last0 = (last0, []) := by
  rw [gateStep1, if_neg h]

lemma gateStep1_fst_of_pos {thr : ℝ} {bm : List ℝ} (now : ℤ) (p : ℝ) (last0 : ℤ)
    (h : thr ≤ (computeEnsemble bm).score) :
    (gateStep1 thr bm now p last0).1 = now := by
  rw [gateStep1, if_pos h]

lemma gateStep1_len_of_pos {thr : ℝ} {bm : List ℝ} (now : ℤ) (p : ℝ) (last0 : ℤ)
    (h : thr ≤ (computeEnsemble bm).score) :
    (gateStep1 thr bm now p last0).2.length = 1 := by
  rw [gateStep1, if_pos h]
  rfl

lemma gateStep1_emit {thr : ℝ} {bm : List ℝ} {now : ℤ} {p : ℝ} {last0 : ℤ}
    (h : (gateStep1 thr bm now p last0).2 ≠ []) :
    (gateStep1 thr bm now p last0).1 = now := by
  rw [gateStep1] at h ⊢
  split_ifs at h ⊢ <;> simp_all

lemma gateStep1_noemit {thr : ℝ} {bm : List ℝ} {now : ℤ} {p : ℝ} {last0 : ℤ}
    (h : (gateStep1 thr bm now p last0).2 = []) :
    (gateStep1 thr bm now p last0).1 = last0 := by
  rw [gateStep1] at h ⊢
  split_ifs at h ⊢
  simp_all

lemma gateStep3_len_le (cd : ℤ) (symM symA : String) (bm ba : List ℝ) (now : ℤ)
    (p : ℝ) (last2 : ℤ) : (gateStep3 cd symM symA bm ba now p last2).2.length ≤ 1 := by
  rw [gateStep3]
  split_ifs <;> simp

lemma gateStep3_emit {cd : ℤ} {symM symA : String} {bm ba : List ℝ} {now : ℤ}
    {p : ℝ} {last2 : ℤ} (h : (gateStep3 cd symM symA bm ba now p last2).2 ≠ []) :
    (gateStep3 cd symM symA bm ba now p last2).1 = now := by
  rw [gateStep3] at h ⊢
  split_ifs at h ⊢ <;> simp_all

lemma gateStep3_noemit {cd : ℤ} {symM symA : String} {bm ba : List ℝ} {now : ℤ}
    {p : ℝ} {last2 : ℤ} (h : (gateStep3 cd symM symA bm ba now p last2).2 = []) :
    (gateStep3 cd symM symA bm ba now p last2).1 = last2 := by
  rw [gateStep3] at h ⊢
  split_ifs at h ⊢ <;> simp_all

lemma gateStep3_guard_fail (symM symA : String) (p : ℝ) {cd : ℤ} {bm ba : List ℝ}
    {now : ℤ} {last2 : ℤ} (h : ¬ (9 ≤ bm.length ∧ 9 ≤ ba.length ∧ cd ≤ now - last2)) :
    gateStep3 cd symM symA bm ba now p last2 = (last2, []) := by
  rw [gateStep3, if_neg h]

lemma output_decomp (thr : ℝ) (cd : ℤ) (symM symA : String) (st : EngineState)
    (now : ℤ) (p : ℝ) (hg : ¬ now - st.lastSignal < cd) :
    maybeEmitSignals thr cd symM symA st now p
      = ({ bufMain := st.bufMain, bufAlt := st.bufAlt,
           lastSignal := (gateStep3 cd symM symA st.bufMain st.bufAlt now p
             (gateStep1 thr st.bufMain now p st.lastSignal).1).1 },
         (gateStep1 thr st.bufMain now p st.lastSignal).2 ++
           (gateStep3 cd symM symA st.bufMain st.bufAlt now p
             (gateStep1 thr st.bufMain now p st.lastSignal).1).2) := by
  rw [maybeEmitSignals, if_neg hg]
  simp [gateStep2_eq]

end GateLemmas

/-- C6: for nonnegative prices the parity direction is `even` iff
`⌊price⌋ mod 10` is an even digit and `odd` otherwise, and the confidence is
`min(0.99, 0.5 + bonus)` with the variant's bonus (`0.03` consolidated,
`0.05` one-tick) applied exactly when the digit is even — so both are pure
functions of `⌊price⌋ mod 10`. -/
theorem C6_parity_pure_function (price : ℝ) (h : 0 ≤ price) :
    ((parityConfidence price).parity = "even" ↔
      ⌊price⌋ % 10 ∈ ([0, 2, 4, 6, 8] : List ℤ)) ∧
    ((parityConfidence price).parity = "odd" ↔
      ⌊price⌋ % 10 ∉ ([0, 2, 4, 6, 8] : List ℤ)) ∧
    (parityConfidence price).conf = min 0.99
      (0.5 + if ⌊price⌋ % 10 ∈ ([0, 2, 4, 6, 8] : List ℤ) then (0.03 : ℝ) else 0) ∧
    (parity1Tick price = "even" ↔ ⌊price⌋ % 10 ∈ ([0, 2, 4, 6, 8] : List ℤ)) ∧
    (parity1Tick price = "odd" ↔ ⌊price⌋ % 10 ∉ ([0, 2, 4, 6, 8] : List ℤ)) ∧
    parityConf1Tick price = min 0.99
      (0.5 + if ⌊price⌋ % 10 ∈ ([0, 2, 4, 6, 8] : List ℤ) then (0.05 : ℝ) else 0) := by
  have hf : 0 ≤ ⌊price⌋ := Int.floor_nonneg.mpr h
  have hd : lastDigit price = ⌊price⌋ % 10 := by
    rw [lastDigit, Int.tmod_eq_emod hf (by norm_num)]
  have h0 : 0 ≤ ⌊price⌋ % 10 := Int.emod_nonneg _ (by norm_num)
  have h10 : ⌊price⌋ % 10 < 10 := Int.emod_lt_of_pos _ (by norm_num)
  have key : Int.tmod (⌊price⌋ % 10) 2 = 0 ↔
      ⌊price⌋ % 10 ∈ ([0, 2, 4, 6, 8] : List ℤ) := by
    set d := ⌊price⌋ % 10 with hdef
    interval_cases d <;> decide
  have hpar : (parityConfidence price).parity
      = if Int.tmod (⌊price⌋ % 10) 2 = 0 then "even" else "odd" := by
    rw [parityConfidence_parity, hd]
  have heven : (parityConfidence price).parity = "even" ↔
      ⌊price⌋ % 10 ∈ ([0, 2, 4, 6, 8] : List ℤ) := by
    rw [hpar]
    by_cases hk : Int.tmod (⌊price⌋ % 10) 2 = 0
    · rw [if_pos hk]
      exact ⟨fun _ => key.mp hk, fun _ => rfl⟩
    · rw [if_neg hk]
      exact ⟨fun he => absurd he (by decide), fun hm => absurd (key.mpr hm) hk⟩
  have hodd : (parityConfidence price).parity = "odd" ↔
      ⌊price⌋ % 10 ∉ ([0, 2, 4, 6, 8] : List ℤ) := by
    rw [hpar]
    by_cases hk : Int.tmod (⌊price⌋ % 10) 2 = 0
    · rw [if_pos hk]
      exact ⟨fun he => absurd he (by decide), fun hm => absurd (key.mp hk) hm⟩
    · rw [if_neg hk]
      exact ⟨fun _ hm => hk (key.mpr hm), fun _ => rfl⟩
  have h1t : parity1Tick price = (parityConfidence price).parity := rfl
  refine ⟨heven, hodd, ?_, ?_, ?_, ?_⟩
  · rw [parityConfidence_conf, hd]
  · rw [h1t]
    exact heven
  · rw [h1t]
    exact hodd
  · rw [parityConf1Tick, hd]

/-- C7: a `matches` signal is emitted only when both buffers hold at least 9
samples; its confidence is `min(0.95, |diff|/5 + 0.45)` for the cross-symbol
divergence `diff`, its direction is the main symbol iff `diff > 0`, and it is
admitted only when the confidence clears the `0.6` threshold and the shared
cooldown has elapsed. -/
theorem C7_matches_divergence (thr : ℝ) (cd : ℤ) (symM symA : String)
    (st : EngineState) (now : ℤ) (p : ℝ) :
    ∀ s ∈ (maybeEmitSignals thr cd symM symA st now p).2, s.type = SigType.matches →
      9 ≤ st.bufMain.length ∧ 9 ≤ st.bufAlt.length ∧
      s.confidence = min 0.95 (|matchesDiff st.bufMain st.bufAlt| / 5 + 0.45) ∧
      s.direction = (if 0 < matchesDiff st.bufMain st.bufAlt then symM else symA) ∧
      (0.6 : ℝ) < s.confidence ∧
      cd ≤ now - st.lastSignal := by
  intro s hs hm
  by_cases hg : now - st.lastSignal < cd
  · rw [maybeEmitSignals, if_pos hg] at hs
    simp at hs
  · rw [output_decomp thr cd symM symA st now p hg] at hs
    rcases List.mem_append.mp hs with h1 | h3
    · have hh := mem_gateStep1 h1
      rw [hh.1] at hm
      exact absurd hm (by decide)
    · have hh := mem_gateStep3 h3
      refine ⟨hh.2.1, hh.2.2.1, ?_, hh.2.2.2.2.2.1, ?_, by omega⟩
      · rw [hh.2.2.2.2.1, matchesConf]
      · rw [hh.2.2.2.2.1]
        exact hh.2.2.2.2.2.2

/-- C10: the consolidated engine never emits an `even_odd` signal for any
input: the parity confidence is at most `0.5 + 0.03 = 0.53`, strictly below
the hard-coded `0.55` admission threshold, so that branch is unreachable. -/
theorem C10_even_odd_unreachable (thr : ℝ) (cd : ℤ) (symM symA : String)
    (st : EngineState) (now : ℤ) (p : ℝ) :
    (parityConfidence p).conf ≤ 0.53 ∧
    ∀ s ∈ (maybeEmitSignals thr cd symM symA st now p).2, s.type ≠ SigType.even_odd := by
  refine ⟨parity_conf_le p, fun s hs => ?_⟩
  by_cases hg : now - st.lastSignal < cd
  · rw [maybeEmitSignals, if_pos hg] at hs
    simp at hs
  · rw [output_decomp thr cd symM symA st now p hg] at hs
    rcases List.mem_append.mp hs with h1 | h3
    · have hh := mem_gateStep1 h1
      rw [hh.1]
      decide
    · have hh := mem_gateStep3 h3
      rw [hh.1]
      decide

/-- C1: with a positive cooldown, each evaluation cycle admits at most one
signal; nothing at all is admitted while the shared cooldown has not elapsed;
any emission moves the single shared `lastSignal` timestamp to `now` (which is
what suppresses the remaining candidates of the cycle and all candidates of
later cycles until the cooldown elapses); a cycle without emission leaves the
state untouched; every admitted candidate clears its own threshold; and a
lower-priority candidate is admitted only when `over_under` did not qualify —
the fixed priority order is `over_under`, `even_odd`, `matches`. -/
theorem C1_shared_gate (thr : ℝ) (cd : ℤ) (symM symA : String)
    (st : EngineState) (now : ℤ) (p : ℝ) (hcd : 0 < cd) :
    (maybeEmitSignals thr cd symM symA st now p).2.length ≤ 1 ∧
    (now - st.lastSignal < cd → maybeEmitSignals thr cd symM symA st now p = (st, [])) ∧
    ((maybeEmitSignals thr cd symM symA st now p).2 ≠ [] →
      cd ≤ now - st.lastSignal ∧
      (maybeEmitSignals thr cd symM symA st now p).1.lastSignal = now) ∧
    ((maybeEmitSignals thr cd symM symA st now p).2 = [] →
      (maybeEmitSignals thr cd symM symA st now p).1 = st) ∧
    (∀ s ∈ (maybeEmitSignals thr cd symM symA st now p).2,
      (s.type = SigType.over_under → thr ≤ s.confidence) ∧
      (s.type = SigType.even_odd → (0.55 : ℝ) ≤ s.confidence) ∧
      (s.type = SigType.matches → (0.6 : ℝ) ≤ s.confidence) ∧
      (s.type ≠ SigType.over_under → ¬ thr ≤ (computeEnsemble st.bufMain).score)) := by
  by_cases hg : now - st.lastSignal < cd
  · have hA : maybeEmitSignals thr cd symM symA st now p = (st, []) := by
      rw [maybeEmitSignals, if_pos hg]
    rw [hA]
    exact ⟨by simp, fun _ => rfl, fun hne => absurd rfl hne, fun _ => rfl, by simp⟩
  · have hout := output_decomp thr cd symM symA st now p hg
    have hsnd : (maybeEmitSignals thr cd symM symA st now p).2
        = (gateStep1 thr st.bufMain now p st.lastSignal).2 ++
          (gateStep3 cd symM symA st.bufMain st.bufAlt now p
            (gateStep1 thr st.bufMain now p st.lastSignal).1).2 := by
      rw [hout]
    have hfst : (maybeEmitSignals thr cd symM symA st now p).1.lastSignal
        = (gateStep3 cd symM symA st.bufMain st.bufAlt now p
            (gateStep1 thr st.bufMain now p st.lastSignal).1).1 := by
      rw [hout]
    refine ⟨?_, fun hlt => absurd hlt hg, ?_, ?_, ?_⟩
    · rw [hsnd, List.length_append]
      by_cases h1 : thr ≤ (computeEnsemble st.bufMain).score
      · have hno : ¬ (9 ≤ st.bufMain.length ∧ 9 ≤ st.bufAlt.length ∧
            cd ≤ now - (gateStep1 thr st.bufMain now p st.lastSignal).1) := by
          rintro ⟨-, -, hx⟩
          rw [gateStep1_fst_of_pos now p st.lastSignal h1] at hx
          omega
        rw [gateStep1_len_of_pos now p st.lastSignal h1, gateStep3_guard_fail symM symA p hno]
        simp
      · rw [gateStep1_of_neg h1]
        simpa using gateStep3_len_le cd symM symA st.bufMain st.bufAlt now p st.lastSignal
    · intro hne
      refine ⟨by omega, ?_⟩
      rw [hfst]
      by_cases h3e : (gateStep3 cd symM symA st.bufMain st.bufAlt now p
          (gateStep1 thr st.bufMain now p st.lastSignal).1).2 = []
      · have h1e : (gateStep1 thr st.bufMain now p st.lastSignal).2 ≠ [] := by
          intro h1e
          apply hne
          rw [hsnd, h1e, h3e]
          rfl
        rw [gateStep3_noemit h3e, gateStep1_emit h1e]
      · rw [gateStep3_emit h3e]
    · intro hemp
      rw [hsnd] at hemp
      obtain ⟨h1e, h3e⟩ := List.append_eq_nil.mp hemp
      rw [hout]
      show EngineState.mk st.bufMain st.bufAlt _ = st
      rw [gateStep3_noemit h3e, gateStep1_noemit h1e]
    · intro s hs
      rw [hsnd] at hs
      rcases List.mem_append.mp hs with h1m | h3m
      · have hh := mem_gateStep1 h1m
        refine ⟨fun _ => ?_, fun habs => absurd (hh.1.symm.trans habs) (by decide),
          fun habs => absurd (hh.1.symm.trans habs) (by decide),
          fun hne => absurd hh.1 hne⟩
        rw [hh.2.1]
        exact hh.2.2
      · have hh := mem_gateStep3 h3m
        have hnl : ¬ thr ≤ (computeEnsemble st.bufMain).score := by
          intro h1
          have hx := hh.2.2.2.1
          rw [gateStep1_fst_of_pos now p st.lastSignal h1] at hx
          omega
        refine ⟨fun habs => absurd (hh.1.symm.trans habs) (by decide),
          fun habs => absurd (hh.1.symm.trans habs) (by decide), fun _ => ?_, fun _ => hnl⟩
        rw [hh.2.2.2.2.1]
        exact le_of_lt hh.2.2.2.2.2.2

section ConcreteRuns

lemma evalA : (maybeEmitSignals 0 5000 "R_100" "R_25" ⟨[], [], 0⟩ 6000 100).2
    = [{ id := "sig_" ++ toString (6000 : ℤ), ts := 6000, type := SigType.over_under,
         direction := "none", price := 100, score := 0, confidence := 0,
         expiry_seconds := 60 }] := by
  have hsc : computeEnsemble ([] : List ℝ) = insufficientResult :=
    computeEnsemble_of_lt [] (by simp)
  have hg : ¬ ((6000 : ℤ) - (⟨[], [], 0⟩ : EngineState).lastSignal < 5000) := by decide
  rw [output_decomp 0 5000 "R_100" "R_25" ⟨[], [], 0⟩ 6000 100 hg]
  dsimp only
  have hcond : (0 : ℝ) ≤ (computeEnsemble ([] : List ℝ)).score := by
    rw [hsc]
    norm_num [insufficientResult]
  rw [gateStep1, if_pos hcond]
  dsimp only
  have hno : ¬ (9 ≤ ([] : List ℝ).length ∧ 9 ≤ ([] : List ℝ).length ∧
      (5000 : ℤ) ≤ 6000 - 6000) := by
    rintro ⟨h9, -⟩
    simp at h9
  rw [gateStep3_guard_fail "R_100" "R_25" 100 hno]
  simp [hsc, insufficientResult]

lemma evalB : (maybeEmitSignals 0.6 5000 "R_100" "R_25" ⟨wBufMain, wBufAlt, 0⟩ 6000 101).2
    = [{ id := "sig_" ++ toString (6000 : ℤ) ++ "_match", ts := 6000,
         type := SigType.matches, direction := "R_100", price := 101, score := 0.95,
         confidence := 0.95, expiry_seconds := 60 }] := by
  have hg : ¬ ((6000 : ℤ) - (⟨wBufMain, wBufAlt, 0⟩ : EngineState).lastSignal < 5000) := by
    decide
  rw [output_decomp 0.6 5000 "R_100" "R_25" ⟨wBufMain, wBufAlt, 0⟩ 6000 101 hg]
  dsimp only
  have hsc : computeEnsemble wBufMain = insufficientResult :=
    computeEnsemble_of_lt _ (by simp [wBufMain])
  have hni : ¬ ((0.6 : ℝ) ≤ (computeEnsemble wBufMain).score) := by
    rw [hsc]
    norm_num [insufficientResult]
  rw [gateStep1_of_neg hni]
  dsimp only
  have hdiff : matchesDiff wBufMain wBufAlt = 20 / 3 := by
    rw [matchesDiff, sma_eq wBufMain 3 (by simp [wBufMain]),
      sma_eq wBufMain 9 (by simp [wBufMain]), sma_eq wBufAlt 3 (by simp [wBufAlt]),
      sma_eq wBufAlt 9 (by simp [wBufAlt])]
    simp [wBufMain, wBufAlt]
    norm_num
  have hconf : matchesConf wBufMain wBufAlt = 0.95 := by
    rw [matchesConf, hdiff, abs_of_nonneg (by norm_num)]
    norm_num [min_def]
  have hguard : 9 ≤ wBufMain.length ∧ 9 ≤ wBufAlt.length ∧ (5000 : ℤ) ≤ 6000 - 0 := by
    refine ⟨by simp [wBufMain], by simp [wBufAlt], by norm_num⟩
  rw [gateStep3, if_pos hguard, if_pos (show (0.6 : ℝ) < matchesConf wBufMain wBufAlt by
    rw [hconf]; norm_num)]
  norm_num [hconf, hdiff]

end ConcreteRuns

/-- Witness for C1 at a concrete cycle: with cooldown 5000 elapsed and a
qualifying candidate, exactly one signal is admitted and the shared timestamp
moves to `now`. -/
theorem C1_shared_gate_witness :
    (maybeEmitSignals 0 5000 "R_100" "R_25" ⟨[], [], 0⟩ 6000 100).2.length ≤ 1 ∧
    (maybeEmitSignals 0 5000 "R_100" "R_25" ⟨[], [], 0⟩ 6000 100).1.lastSignal = 6000 := by
  have h := C1_shared_gate 0 5000 "R_100" "R_25" ⟨[], [], 0⟩ 6000 100 (by norm_num)
  refine ⟨h.1, (h.2.2.1 ?_).2⟩
  rw [evalA]
  simp

/-- Witness for C6 at the spec's example prices: `10000.7` has last digit 0,
hence `even` with confidence `0.53`; `10003.2` has last digit 3, hence `odd`
with confidence `0.5`; the one-tick variant gives `0.55` for an even digit. -/
theorem C6_parity_pure_function_witness :
    (parityConfidence 10000.7).parity = "even" ∧ (parityConfidence 10000.7).conf = 0.53 ∧
    (parityConfidence 10003.2).parity = "odd" ∧ (parityConfidence 10003.2).conf = 0.5 ∧
    parityConf1Tick 10000.7 = 0.55 := by
  have hf1 : ⌊(10000.7 : ℝ)⌋ = 10000 := by
    rw [Int.floor_eq_iff]
    norm_num
  have hf2 : ⌊(10003.2 : ℝ)⌋ = 10003 := by
    rw [Int.floor_eq_iff]
    norm_num
  have h1 := C6_parity_pure_function 10000.7 (by norm_num)
  have h2 := C6_parity_pure_function 10003.2 (by norm_num)
  rw [hf1] at h1
  rw [hf2] at h2
  refine ⟨h1.1.mpr (by decide), ?_, h2.2.1.mpr (by decide), ?_, ?_⟩
  · rw [h1.2.2.1, if_pos (by decide)]
    norm_num [min_def]
  · rw [h2.2.2.1, if_neg (by decide)]
    norm_num [min_def]
  · rw [h1.2.2.2.2.2, if_pos (by decide)]
    norm_num [min_def]

/-- Witness for C7 at a concrete cycle that emits a `matches` signal: both
buffers have 9 samples, the divergence is `20/3`, the confidence caps at
`0.95`, the direction is the main symbol, and the cooldown had elapsed. -/
theorem C7_matches_divergence_witness :
    9 ≤ wBufMain.length ∧ 9 ≤ wBufAlt.length ∧
    (0.95 : ℝ) = min 0.95 (|matchesDiff wBufMain wBufAlt| / 5 + 0.45) ∧
    "R_100" = (if 0 < matchesDiff wBufMain wBufAlt then "R_100" else "R_25") ∧
    (0.6 : ℝ) < 0.95 ∧ (5000 : ℤ) ≤ 6000 - 0 := by
  have hmem : (⟨"sig_" ++ toString (6000 : ℤ) ++ "_match", 6000, SigType.matches,
      "R_100", 101, 0.95, 0.95, 60⟩ : Signal)
      ∈ (maybeEmitSignals 0.6 5000 "R_100" "R_25" ⟨wBufMain, wBufAlt, 0⟩ 6000 101).2 := by
    rw [evalB]
    exact List.mem_singleton.mpr rfl
  have h := C7_matches_divergence 0.6 5000 "R_100" "R_25" ⟨wBufMain, wBufAlt, 0⟩ 6000 101
    _ hmem rfl
  simpa using h

/-- Witness for C10 at a concrete cycle that does emit a signal: the emitted
signal is `over_under`, not `even_odd`, and the parity confidence at price 100
is at most `0.53`. -/
theorem C10_even_odd_unreachable_witness :
    (parityConfidence 100).conf ≤ 0.53 ∧
    (⟨"sig_" ++ toString (6000 : ℤ), 6000, SigType.over_under, "none", 100, 0, 0,
      60⟩ : Signal).type ≠ SigType.even_odd := by
  have h := C10_even_odd_unreachable 0 5000 "R_100" "R_25" ⟨[], [], 0⟩ 6000 100
  refine ⟨h.1, h.2 _ ?_⟩
  rw [evalA]
  exact List.mem_singleton.mpr rfl

end KillerSignal
